import Mathlib

/-!
Shallow embedding of the combination-search and pricing engine of the
telecom combined-product repository (`db_read_new.py`), together with the
schema rows it reads (`db_schema_new.py`).  Money amounts are integers in
the smallest currency unit; identifiers are strings, as in the schema.
-/

namespace TelecomDB

/-- Row of the `ServicePlan` table (fields read by the pricing code). -/
structure ServicePlan where
  id : String
  company_id : Int
  name : String
  service_type : String
  fee : Int
deriving DecidableEq

/-- Row of the `Company` table. -/
structure Company where
  id : Int
  name : String
deriving DecidableEq

/-- Row of the `CombinedProduct` table (fields read by the pricing code). -/
structure CombinedProduct where
  id : String
  name : String
  company_id : Int
  min_mobile_lines : Int
  min_internet_lines : Int
  min_iptv_lines : Int
deriving DecidableEq

/-- Row of the `CombinedProductEligibility` join table. -/
structure Eligibility where
  combined_product_id : String
  service_plan_id : String
deriving DecidableEq

/-- Row of the `Discount` table (fields read by the pricing code). -/
structure Discount where
  id : String
  combined_product_id : String
  discount_value : Int
deriving DecidableEq

/-- Row of the `DiscountConditionByPlan` table. -/
structure DiscountConditionByPlan where
  discount_id : String
  service_plan_id : String
  override_discount_value : Option Int
  override_unit : Option String
deriving DecidableEq

/-- Row of the `DiscountConditionByLineCount` table (only its `discount_id`
is ever read, by `classify_discount_type`). -/
structure DiscountConditionByLineCount where
  discount_id : String
deriving DecidableEq

/-- An immutable snapshot of the database tables. -/
structure DB where
  companies : List Company
  servicePlans : List ServicePlan
  combinedProducts : List CombinedProduct
  eligibility : List Eligibility
  discounts : List Discount
  planConds : List DiscountConditionByPlan
  lineConds : List DiscountConditionByLineCount
deriving DecidableEq

/-- `classify_discount_type(cursor, discount_id)`: counts condition rows
keyed by `discount_id` in the two condition tables. -/
def classify_discount_type (db : DB) (x : String) : String :=
  let planCount := (db.planConds.filter (fun c => decide (c.discount_id = x))).length
  let lineCount := (db.lineConds.filter (fun c => decide (c.discount_id = x))).length
  if planCount > 0 ∧ lineCount > 0 then "mixed"
  else if planCount > 0 then "plan_based"
  else if lineCount > 0 then "line_based"
  else "simple"

/-- The `SELECT sp.* FROM ServicePlan sp JOIN CombinedProductEligibility cpe
ON sp.id = cpe.service_plan_id WHERE cpe.combined_product_id = ?` query:
plans having an eligibility edge to the product. -/
def eligiblePlans (db : DB) (pid : String) : List ServicePlan :=
  db.servicePlans.filter (fun sp =>
    decide (∃ e ∈ db.eligibility,
      e.combined_product_id = pid ∧ e.service_plan_id = sp.id))

/-- The dictionary keys of `plans_by_type`, in insertion order. -/
def serviceTypes : List String := ["Mobile", "Internet", "TV"]

/-- The bucket `plans_by_type[t]`: eligible rows whose `service_type` is `t`
(rows of any other service type are dropped by the bucketing loop). -/
def plansByType (db : DB) (pid : String) (t : String) : List ServicePlan :=
  (eligiblePlans db pid).filter (fun sp => decide (sp.service_type = t))

/-- `dict.get(t, 0)` on the `min_counts` / `max_counts` string-keyed maps. -/
def getCount (m : List (String × Nat)) (t : String) : Nat :=
  match m.find? (fun p => decide (p.1 = t)) with
  | some p => p.2
  | none => 0

/-- Helper for `combinations_with_replacement`: walks the candidate list,
prepending the current head to every smaller selection taken from the
remaining suffix (`cwrPrev` computes selections one size smaller). -/
def cwrAux {α : Type} (cwrPrev : List α → List (List α)) :
    List α → List (List α)
  | [] => []
  | x :: xs => ((cwrPrev (x :: xs)).map (fun l => x :: l)) ++ cwrAux cwrPrev xs

/-- `itertools.combinations_with_replacement(xs, r)`: all non-decreasing
index selections of size `r`, in lexicographic order. -/
def combinations_with_replacement {α : Type} (xs : List α) :
    Nat → List (List α)
  | 0 => [[]]
  | r + 1 => cwrAux (fun ys => combinations_with_replacement ys r) xs

/-- `service_type_combos`: multisets of every size `r` in
`range(min_count, max_count + 1)`, concatenated in increasing `r`. -/
def typeCombos {α : Type} (plans : List α) (minc maxc : Nat) : List (List α) :=
  ((List.range' minc (maxc + 1 - minc)).map
    (fun r => combinations_with_replacement plans r)).flatten

/-- `itertools.product(*lists)` followed by flattening each tuple of
per-type selections into one plan list (`combined.extend(sublist)`). -/
def crossJoin {α : Type} : List (List (List α)) → List (List α)
  | [] => [[]]
  | L :: rest => (L.map (fun c => (crossJoin rest).map (fun r => c ++ r))).flatten

/-- `all_combinations` for one combined product: the cross product, over the
three service types, of that type's size-bounded multisets. -/
def allCombos (db : DB) (pid : String) (mins maxs : List (String × Nat)) :
    List (List ServicePlan) :=
  crossJoin (serviceTypes.map (fun t =>
    typeCombos (plansByType db pid t) (getCount mins t) (getCount maxs t)))

/-- The condition rows fetched for one plan occurrence of a bundle:
`WHERE dcbp.service_plan_id = plan.id AND dcbp.discount_id IN
(SELECT id FROM Discount WHERE combined_product_id = pid)`. -/
def matchingConds (db : DB) (pid : String) (plan : ServicePlan) :
    List DiscountConditionByPlan :=
  db.planConds.filter (fun c =>
    decide (c.service_plan_id = plan.id ∧
      ∃ d ∈ db.discounts, d.id = c.discount_id ∧ d.combined_product_id = pid))

/-- `total_discount` of a bundle: for each plan occurrence, the sum of the
non-null `override_discount_value`s of its matching condition rows. -/
def totalDiscountFor (db : DB) (pid : String) (combo : List ServicePlan) : Int :=
  (combo.map (fun p =>
    ((matchingConds db pid p).filterMap
      (fun c => c.override_discount_value)).sum)).sum

/-- `total_fee` of a bundle. -/
def totalFeeFor (combo : List ServicePlan) : Int :=
  (combo.map (fun p => p.fee)).sum

/-- One entry of the result list built by
`search_combined_product_combinations`. -/
structure SearchResult where
  combined_product_name : String
  plans : List ServicePlan
  total_base_fee : Int
  total_discount_amount : Int
  final_price : Int
  discount_type : String
  combined_product_id : String
deriving DecidableEq

/-- The result record built for one surviving bundle. -/
def mkResult (db : DB) (cp : CombinedProduct) (combo : List ServicePlan) :
    SearchResult :=
  { combined_product_name := cp.name
    plans := combo
    total_base_fee := totalFeeFor combo
    total_discount_amount := totalDiscountFor db cp.id combo
    final_price := totalFeeFor combo - totalDiscountFor db cp.id combo
    discount_type := classify_discount_type db cp.id
    combined_product_id := cp.id }

/-- `all_plan_names` for one product: names of all bucketed eligible plans. -/
def allPlanNames (db : DB) (pid : String) : List String :=
  ((serviceTypes.map (fun t => plansByType db pid t)).flatten).map
    (fun sp => sp.name)

/-- The product-level filter: skip the product unless every required name
appears among its eligible plan names (vacuously passes when the required
list is empty). -/
def productPasses (db : DB) (pid : String) (req : List String) : Bool :=
  req.isEmpty || req.all (fun n => decide (n ∈ allPlanNames db pid))

/-- The bundle-level filter: keep the bundle when the required list is empty
or at least one required name occurs in the bundle. -/
def bundleKeeps (req : List String) (combo : List ServicePlan) : Bool :=
  req.isEmpty || req.any (fun n => combo.any (fun p => decide (p.name = n)))

/-- The results contributed by one combined product: bundles that survive
both filters, priced.  Filtering happens before pricing, as in the source
(`continue` before `total_fee` is computed). -/
def resultsForProduct (db : DB) (mins maxs : List (String × Nat))
    (req : List String) (cp : CombinedProduct) : List SearchResult :=
  if productPasses db cp.id req then
    ((allCombos db cp.id mins maxs).filter (fun combo => bundleKeeps req combo)).map
      (fun combo => mkResult db cp combo)
  else []

/-- `total_results` across all combined products, in table order. -/
def totalResults (db : DB) (mins maxs : List (String × Nat))
    (req : List String) : List SearchResult :=
  ((db.combinedProducts.map (fun cp => resultsForProduct db mins maxs req cp)).flatten)

/-- Stable insertion (ascending by an integer key): the new element goes in
front of the first element whose key is not smaller, so equal keys keep
their original relative order — the behavior of Python's stable `sort`. -/
def insertAsc {α : Type} (key : α → Int) (x : α) : List α → List α
  | [] => [x]
  | y :: ys => if key x ≤ key y then x :: y :: ys else y :: insertAsc key x ys

/-- Stable sort ascending by an integer key. -/
def sortAsc {α : Type} (key : α → Int) : List α → List α
  | [] => []
  | x :: xs => insertAsc key x (sortAsc key xs)

/-- Stable insertion for descending order (`reverse=True`): the new element
goes in front of the first element whose key is not greater. -/
def insertDesc {α : Type} (key : α → Int) (x : α) : List α → List α
  | [] => [x]
  | y :: ys => if key y ≤ key x then x :: y :: ys else y :: insertDesc key x ys

/-- Stable sort descending by an integer key (`sort(key=…, reverse=True)`). -/
def sortDesc {α : Type} (key : α → Int) : List α → List α
  | [] => []
  | x :: xs => insertDesc key x (sortDesc key xs)

/-- The `sort_by` dispatch of `search_combined_product_combinations`
(an unknown `sort_by` string leaves the list unsorted, as in the source). -/
def sortResults (sortBy : String) (l : List SearchResult) : List SearchResult :=
  if sortBy = "max_discount_amount" then
    sortDesc (fun r => r.total_discount_amount) l
  else if sortBy = "min_final_price" then
    sortAsc (fun r => r.final_price) l
  else if sortBy = "max_total_base_fee" then
    sortDesc (fun r => r.total_base_fee) l
  else l

/-- One step of building `{r["combined_product_id"]: r for r in results}`:
an existing key keeps its position but its value is replaced; a new key is
appended at the end — Python dict-comprehension semantics. -/
def upsertLast (m : List SearchResult) (r : SearchResult) : List SearchResult :=
  if m.any (fun s => decide (s.combined_product_id = r.combined_product_id)) then
    m.map (fun s => if s.combined_product_id = r.combined_product_id then r else s)
  else m ++ [r]

/-- `list({r["combined_product_id"]: r for r in results}.values())`. -/
def dedupeByProduct (l : List SearchResult) : List SearchResult :=
  l.foldl upsertLast []

/-- `search_combined_product_combinations`: enumerate, price, sort, then
either dedupe by product id (`only_products`) or not, and truncate to
`limit`.  The `with_combinations` branch returns the same list in both
arms, as in the source. -/
def search_combined_product_combinations (db : DB)
    (mins maxs : List (String × Nat)) (req : List String)
    (sortBy : String) (lim : Nat) (onlyProducts withCombinations : Bool) :
    List SearchResult :=
  if onlyProducts then
    (dedupeByProduct (sortResults sortBy (totalResults db mins maxs req))).take lim
  else if withCombinations then
    (sortResults sortBy (totalResults db mins maxs req)).take lim
  else
    (sortResults sortBy (totalResults db mins maxs req)).take lim

/-- The row returned by `calculate_combined_product_pricing`. -/
structure PricingResult where
  combined_product_id : String
  combined_product_name : String
  company_name : String
  associated_plans : List ServicePlan
  total_base_fee : Int
  total_discount_amount : Int
  final_price : Int
deriving DecidableEq

/-- The `CombinedProduct JOIN Company` lookup at the top of
`calculate_combined_product_pricing`; `fetchone` takes the first row. -/
def findProductInfo (db : DB) (pid : String) :
    Option (CombinedProduct × Company) :=
  ((db.combinedProducts.filter (fun cp => decide (cp.id = pid))).filterMap
    (fun cp =>
      (db.companies.find? (fun c => decide (c.id = cp.company_id))).map
        (fun c => (cp, c)))).head?

/-- `associated_plans`: for each of Mobile, Internet, TV in that order, the
eligible plans of that type ordered by fee descending. -/
def associatedPlans (db : DB) (pid : String) : List ServicePlan :=
  ((serviceTypes.map (fun t => sortDesc (fun sp => sp.fee) (plansByType db pid t))).flatten)

/-- The per-(discount, associated-plan) condition lookup of
`calculate_combined_product_pricing`: the plan is resolved by name through
`SELECT id FROM ServicePlan WHERE name = ? LIMIT 1`, then the first
condition row for (discount, that plan id) is fetched. -/
def planCondFor (db : DB) (d : Discount) (apName : String) :
    Option DiscountConditionByPlan :=
  match (db.servicePlans.filter (fun sp => decide (sp.name = apName))).head? with
  | none => none
  | some sp =>
      (db.planConds.filter (fun c =>
        decide (c.discount_id = d.id ∧ c.service_plan_id = sp.id))).head?

/-- The amount one (discount, associated-plan) pair adds to
`total_discount_amount` in `calculate_combined_product_pricing`: the
override value when the fetched condition row has one, the discount's own
`discount_value` when the row exists but its override is null, and nothing
when no row matches. -/
def calcContribution (db : DB) (d : Discount) (apName : String) : Int :=
  match planCondFor db d apName with
  | some c => c.override_discount_value.getD d.discount_value
  | none => 0

/-- `calculate_combined_product_pricing(db, combined_product_id)`. -/
def calculate_combined_product_pricing (db : DB) (pid : String) :
    Option PricingResult :=
  match findProductInfo db pid with
  | none => none
  | some (cp, comp) =>
      let aps := associatedPlans db pid
      let baseFee := (aps.map (fun sp => sp.fee)).sum
      let ds := db.discounts.filter (fun d => decide (d.combined_product_id = pid))
      let discountTotal :=
        ((ds.map (fun d => (aps.map (fun ap => calcContribution db d ap.name)).sum)).sum)
      some
        { combined_product_id := cp.id
          combined_product_name := cp.name
          company_name := comp.name
          associated_plans := aps
          total_base_fee := baseFee
          total_discount_amount := discountTotal
          final_price := baseFee - discountTotal }

/-! ### Auxiliary catalog transformations used to state claims -/

/-- Replace every plan-condition row's `override_unit` by `u`; the pricing
code never reads this column, which the C1 theorems make precise. -/
def setUnits (u : Option String) (db : DB) : DB :=
  { db with planConds := db.planConds.map (fun c => { c with override_unit := u }) }

/-- Drop every plan-condition row whose `override_discount_value` is null. -/
def dropNullConds (db : DB) : DB :=
  { db with planConds := db.planConds.filter (fun c => c.override_discount_value.isSome) }

/-! ### Concrete example catalogs -/

/-- A company shared by the example catalogs. -/
def companyK : Company := ⟨1, "K"⟩

/-- Internet plan "A", fee 5. -/
def planA : ServicePlan := ⟨"spA", 1, "A", "Internet", 5⟩

/-- Internet plan "B", fee 10. -/
def planB : ServicePlan := ⟨"spB", 1, "B", "Internet", 10⟩

/-- A product whose eligible plans are `planA` and `planB`. -/
def prodR : CombinedProduct := ⟨"R1", "ProdR", 1, 0, 0, 0⟩

/-- Catalog with one product and two Internet plans, no discounts. -/
def dbR : DB :=
  ⟨[companyK], [planA, planB], [prodR],
   [⟨"R1", "spA"⟩, ⟨"R1", "spB"⟩], [], [], []⟩

/-- Internet plan "P", fee 1000. -/
def planP : ServicePlan := ⟨"spP", 1, "P", "Internet", 1000⟩

/-- Product for the percentage-override example. -/
def prodS : CombinedProduct := ⟨"S1", "ProdS", 1, 0, 0, 0⟩

/-- Discount on `prodS` with nominal value 0. -/
def discD : Discount := ⟨"D1", "S1", 0⟩

/-- Condition overriding `planP` by value 10 with unit `percentage`. -/
def condD : DiscountConditionByPlan := ⟨"D1", "spP", some 10, some "percentage"⟩

/-- Catalog with a percentage-unit override row. -/
def dbS : DB :=
  ⟨[companyK], [planP], [prodS], [⟨"S1", "spP"⟩], [discD], [condD], []⟩

/-- Internet plan "Q", fee 100. -/
def planQ : ServicePlan := ⟨"spQ", 1, "Q", "Internet", 100⟩

/-- Product for the null-override example. -/
def prodT : CombinedProduct := ⟨"T1", "ProdT", 1, 0, 0, 0⟩

/-- Discount on `prodT` with nominal value 40. -/
def discE : Discount := ⟨"E1", "T1", 40⟩

/-- Condition row matching `planQ` whose override value is null. -/
def condE : DiscountConditionByPlan := ⟨"E1", "spQ", none, none⟩

/-- Catalog with a null-override condition row. -/
def dbT : DB :=
  ⟨[companyK], [planQ], [prodT], [⟨"T1", "spQ"⟩], [discE], [condE], []⟩

/-- `min_counts = max_counts = {"Internet": 1}`. -/
def i1 : List (String × Nat) := [("Internet", 1)]

/-- `min_counts = max_counts = {"Internet": 2}`. -/
def i2 : List (String × Nat) := [("Internet", 2)]

/-! ### Lemmas about the stable sorts -/

theorem mem_insertAsc {α : Type} (key : α → Int) (x a : α) (l : List α) :
    a ∈ insertAsc key x l ↔ a = x ∨ a ∈ l := by
  induction l with
  | nil => simp [insertAsc]
  | cons y ys ih =>
      by_cases h : key x ≤ key y
      · simp [insertAsc, h]
      · simp only [insertAsc, if_neg h, List.mem_cons, ih]
        tauto

theorem mem_sortAsc {α : Type} (key : α → Int) (a : α) (l : List α) :
    a ∈ sortAsc key l ↔ a ∈ l := by
  induction l with
  | nil => simp [sortAsc]
  | cons x xs ih => simp [sortAsc, mem_insertAsc, ih]

theorem mem_insertDesc {α : Type} (key : α → Int) (x a : α) (l : List α) :
    a ∈ insertDesc key x l ↔ a = x ∨ a ∈ l := by
  induction l with
  | nil => simp [insertDesc]
  | cons y ys ih =>
      by_cases h : key y ≤ key x
      · simp [insertDesc, h]
      · simp only [insertDesc, if_neg h, List.mem_cons, ih]
        tauto

theorem mem_sortDesc {α : Type} (key : α → Int) (a : α) (l : List α) :
    a ∈ sortDesc key l ↔ a ∈ l := by
  induction l with
  | nil => simp [sortDesc]
  | cons x xs ih => simp [sortDesc, mem_insertDesc, ih]

theorem mem_sortResults (sortBy : String) (a : SearchResult) (l : List SearchResult) :
    a ∈ sortResults sortBy l ↔ a ∈ l := by
  unfold sortResults
  split
  · exact mem_sortDesc _ a l
  · split
    · exact mem_sortAsc _ a l
    · split
      · exact mem_sortDesc _ a l
      · exact Iff.rfl

theorem length_insertAsc {α : Type} (key : α → Int) (x : α) (l : List α) :
    (insertAsc key x l).length = l.length + 1 := by
  induction l with
  | nil => rfl
  | cons y ys ih =>
      by_cases h : key x ≤ key y <;> simp [insertAsc, h, ih]

theorem length_sortAsc {α : Type} (key : α → Int) (l : List α) :
    (sortAsc key l).length = l.length := by
  induction l with
  | nil => rfl
  | cons x xs ih => simp [sortAsc, length_insertAsc, ih]

theorem pairwise_insertAsc {α : Type} (key : α → Int) (x : α) (l : List α)
    (h : l.Pairwise (fun a b => key a ≤ key b)) :
    (insertAsc key x l).Pairwise (fun a b => key a ≤ key b) := by
  induction l with
  | nil => simp [insertAsc]
  | cons y ys ih =>
      rw [List.pairwise_cons] at h
      by_cases hxy : key x ≤ key y
      · rw [insertAsc, if_pos hxy, List.pairwise_cons]
        refine ⟨?_, List.pairwise_cons.2 h⟩
        intro b hb
        rcases List.mem_cons.1 hb with hb | hb
        · exact hb ▸ hxy
        · exact le_trans hxy (h.1 b hb)
      · rw [insertAsc, if_neg hxy, List.pairwise_cons]
        refine ⟨?_, ih h.2⟩
        intro b hb
        rcases (mem_insertAsc key x b ys).1 hb with hb | hb
        · exact hb ▸ le_of_lt (lt_of_not_le hxy)
        · exact h.1 b hb

theorem pairwise_sortAsc {α : Type} (key : α → Int) (l : List α) :
    (sortAsc key l).Pairwise (fun a b => key a ≤ key b) := by
  induction l with
  | nil => simp [sortAsc]
  | cons x xs ih => exact pairwise_insertAsc key x _ ih

theorem sortAsc_head_le {α : Type} (key : α → Int) (l rest : List α) (r : α)
    (h : sortAsc key l = r :: rest) : ∀ s ∈ l, key r ≤ key s := by
  intro s hs
  have hmem : s ∈ r :: rest := h ▸ (mem_sortAsc key s l).2 hs
  rcases List.mem_cons.1 hmem with hm | hm
  · exact hm ▸ le_refl _
  · have hp := pairwise_sortAsc key l
    rw [h, List.pairwise_cons] at hp
    exact hp.1 s hm

theorem filter_insertAsc {α : Type} (key : α → Int) (k : Int) (x : α) (l : List α) :
    (insertAsc key x l).filter (fun s => decide (key s = k))
      = if key x = k then x :: l.filter (fun s => decide (key s = k))
        else l.filter (fun s => decide (key s = k)) := by
  induction l with
  | nil =>
      by_cases hk : key x = k <;> simp [insertAsc, hk]
  | cons y ys ih =>
      by_cases hxy : key x ≤ key y
      · rw [insertAsc, if_pos hxy]
        by_cases hk : key x = k <;> simp [List.filter_cons, hk]
      · rw [insertAsc, if_neg hxy, List.filter_cons]
        by_cases hyk : key y = k
        · have hxk : ¬ key x = k := by
            intro hxk
            have hlt : key y < key x := lt_of_not_le hxy
            rw [hxk, hyk] at hlt
            exact lt_irrefl k hlt
          simp [hyk, ih, hxk]
        · by_cases hxk : key x = k <;> simp [hyk, ih, hxk, List.filter_cons]

theorem filter_sortAsc {α : Type} (key : α → Int) (k : Int) (l : List α) :
    (sortAsc key l).filter (fun s => decide (key s = k))
      = l.filter (fun s => decide (key s = k)) := by
  induction l with
  | nil => rfl
  | cons x xs ih =>
      rw [sortAsc, filter_insertAsc]
      by_cases hk : key x = k <;> simp [List.filter_cons, hk, ih]

/-! ### Lemmas about the dict-comprehension dedupe -/

theorem mem_upsertLast (m : List SearchResult) (r a : SearchResult)
    (h : a ∈ upsertLast m r) : a ∈ m ∨ a = r := by
  unfold upsertLast at h
  split at h
  · obtain ⟨s, hs, hmap⟩ := List.mem_map.1 h
    by_cases hid : s.combined_product_id = r.combined_product_id
    · right; rw [← hmap]; simp [hid]
    · left; rw [← hmap]; simpa [hid] using hs
  · rcases List.mem_append.1 h with hm | hr
    · exact Or.inl hm
    · exact Or.inr (List.mem_singleton.1 hr)

theorem mem_foldl_upsert (l : List SearchResult) (acc : List SearchResult)
    (a : SearchResult) (h : a ∈ List.foldl upsertLast acc l) : a ∈ acc ∨ a ∈ l := by
  induction l generalizing acc with
  | nil => exact Or.inl h
  | cons r rest ih =>
      rw [List.foldl_cons] at h
      rcases ih (upsertLast acc r) h with h1 | h2
      · rcases mem_upsertLast acc r a h1 with hm | hr
        · exact Or.inl hm
        · exact Or.inr (by simp [hr])
      · exact Or.inr (List.mem_cons_of_mem r h2)

theorem mem_dedupe (l : List SearchResult) (a : SearchResult)
    (h : a ∈ dedupeByProduct l) : a ∈ l := by
  rcases mem_foldl_upsert l [] a h with h0 | h1
  · cases h0
  · exact h1

theorem pairwise_upsertLast (m : List SearchResult) (r : SearchResult)
    (h : m.Pairwise (fun a b => a.combined_product_id ≠ b.combined_product_id)) :
    (upsertLast m r).Pairwise
      (fun a b => a.combined_product_id ≠ b.combined_product_id) := by
  unfold upsertLast
  split
  case isTrue hany =>
      have hid : ∀ s : SearchResult,
          ((if s.combined_product_id = r.combined_product_id then r
            else s) : SearchResult).combined_product_id = s.combined_product_id := by
        intro s
        by_cases hs : s.combined_product_id = r.combined_product_id <;> simp [hs]
      exact h.map _ (fun a b hab => by
        rw [hid a, hid b]; exact hab)
  case isFalse hany =>
      rw [List.pairwise_append]
      refine ⟨h, List.pairwise_singleton _ _, ?_⟩
      intro a ha b hb heq
      apply hany
      rcases List.mem_singleton.1 hb with rfl
      exact List.any_eq_true.2 ⟨a, ha, by simp [heq]⟩

theorem pairwise_foldl_upsert (l : List SearchResult) (acc : List SearchResult)
    (h : acc.Pairwise (fun a b => a.combined_product_id ≠ b.combined_product_id)) :
    (List.foldl upsertLast acc l).Pairwise
      (fun a b => a.combined_product_id ≠ b.combined_product_id) := by
  induction l generalizing acc with
  | nil => exact h
  | cons r rest ih =>
      rw [List.foldl_cons]
      exact ih (upsertLast acc r) (pairwise_upsertLast acc r h)

theorem pairwise_dedupe (l : List SearchResult) :
    (dedupeByProduct l).Pairwise
      (fun a b => a.combined_product_id ≠ b.combined_product_id) :=
  pairwise_foldl_upsert l [] (List.Pairwise.nil)

/-! ### Lemmas about the combination enumerator -/

theorem cwr_zero {α : Type} (xs : List α) :
    combinations_with_replacement xs 0 = [[]] := rfl

theorem cwr_nil_succ {α : Type} (r : Nat) :
    combinations_with_replacement ([] : List α) (r + 1) = [] := rfl

theorem cwr_cons_succ {α : Type} (x : α) (xs : List α) (r : Nat) :
    combinations_with_replacement (x :: xs) (r + 1)
      = ((combinations_with_replacement (x :: xs) r).map (fun l => x :: l))
        ++ combinations_with_replacement xs (r + 1) := rfl

theorem length_mem_cwr {α : Type} (xs : List α) (r : Nat) :
    ∀ l ∈ combinations_with_replacement xs r, l.length = r := by
  induction r generalizing xs with
  | zero =>
      intro l hl
      rw [cwr_zero, List.mem_singleton] at hl
      simp [hl]
  | succ r ihr =>
      induction xs with
      | nil =>
          intro l hl
          rw [cwr_nil_succ] at hl
          cases hl
      | cons x xs ihx =>
          intro l hl
          rw [cwr_cons_succ, List.mem_append] at hl
          rcases hl with hl | hl
          · obtain ⟨l2, hl2, rfl⟩ := List.mem_map.1 hl
            simp [ihr (x :: xs) l2 hl2]
          · exact ihx l hl

theorem mem_of_mem_cwr {α : Type} (xs : List α) (r : Nat) :
    ∀ l ∈ combinations_with_replacement xs r, ∀ a ∈ l, a ∈ xs := by
  induction r generalizing xs with
  | zero =>
      intro l hl
      rw [cwr_zero, List.mem_singleton] at hl
      simp [hl]
  | succ r ihr =>
      induction xs with
      | nil =>
          intro l hl
          rw [cwr_nil_succ] at hl
          cases hl
      | cons x xs ihx =>
          intro l hl a ha
          rw [cwr_cons_succ, List.mem_append] at hl
          rcases hl with hl | hl
          · obtain ⟨l2, hl2, rfl⟩ := List.mem_map.1 hl
            rcases List.mem_cons.1 ha with rfl | ha2
            · exact List.mem_cons_self _ _
            · exact ihr (x :: xs) l2 hl2 a ha2
          · exact List.mem_cons_of_mem x (ihx l hl a ha)

theorem length_cwr {α : Type} (xs : List α) (r : Nat) :
    (combinations_with_replacement xs r).length = Nat.multichoose xs.length r := by
  induction r generalizing xs with
  | zero => simp [cwr_zero]
  | succ r ihr =>
      induction xs with
      | nil => simp [cwr_nil_succ]
      | cons x xs ihx =>
          rw [cwr_cons_succ, List.length_append, List.length_map,
            ihr (x :: xs), ihx, List.length_cons, Nat.multichoose_succ_succ]
          omega

theorem typeCombos_same {α : Type} (plans : List α) (k : Nat) :
    typeCombos plans k k = combinations_with_replacement plans k := by
  unfold typeCombos
  have h1 : k + 1 - k = 1 := by omega
  rw [h1, List.range'_one, List.map_cons, List.map_nil, List.flatten_cons,
    List.flatten_nil, List.append_nil]

theorem typeCombos_zero {α : Type} (plans : List α) :
    typeCombos plans 0 0 = [[]] := by
  rw [typeCombos_same]
  simp [combinations_with_replacement]

theorem mem_typeCombos {α : Type} (plans : List α) (minc maxc : Nat)
    (c : List α) (h : c ∈ typeCombos plans minc maxc) :
    ∃ r, c ∈ combinations_with_replacement plans r := by
  unfold typeCombos at h
  rw [List.mem_flatten] at h
  obtain ⟨sub, hsub, hc⟩ := h
  obtain ⟨r, _, rfl⟩ := List.mem_map.1 hsub
  exact ⟨r, hc⟩

theorem sum_map_const {α : Type} (l : List α) (m : Nat) :
    (l.map (fun _ => m)).sum = l.length * m := by
  induction l with
  | nil => simp
  | cons x xs ih => simp [ih, Nat.succ_mul, Nat.add_comm]

theorem length_crossJoin {α : Type} (Ls : List (List (List α))) :
    (crossJoin Ls).length = (Ls.map List.length).prod := by
  induction Ls with
  | nil => rfl
  | cons L rest ih =>
      rw [crossJoin, List.length_flatten, List.map_map]
      have h1 : (List.length ∘ fun c => (crossJoin rest).map (fun r => c ++ r))
          = fun _ => (crossJoin rest).length := by
        funext c
        simp
      rw [h1, sum_map_const, ih, List.map_cons, List.prod_cons]

theorem mem_crossJoin_decompose {α : Type} (L : List (List α))
    (rest : List (List (List α))) (b : List α) (hb : b ∈ crossJoin (L :: rest)) :
    ∃ c ∈ L, ∃ r ∈ crossJoin rest, b = c ++ r := by
  rw [crossJoin, List.mem_flatten] at hb
  obtain ⟨sub, hsub, hbsub⟩ := hb
  obtain ⟨c, hc, rfl⟩ := List.mem_map.1 hsub
  obtain ⟨r, hr, hbr⟩ := List.mem_map.1 hbsub
  exact ⟨c, hc, r, hr, hbr.symm⟩

theorem length_mem_crossJoin {α : Type} (Ls : List (List (List α)))
    (ks : List Nat) (h : List.Forall₂ (fun L k => ∀ c ∈ L, List.length c = k) Ls ks) :
    ∀ b ∈ crossJoin Ls, b.length = ks.sum := by
  induction h with
  | nil =>
      intro b hb
      rw [crossJoin, List.mem_singleton] at hb
      simp [hb]
  | cons hLk hrest ih =>
      intro b hb
      obtain ⟨c, hc, r, hr, rfl⟩ := mem_crossJoin_decompose _ _ b hb
      rw [List.length_append, hLk c hc, ih r hr, List.sum_cons]

theorem mem_elem_crossJoin {α : Type} :
    ∀ (Ls : List (List (List α))) (b : List α), b ∈ crossJoin Ls →
      ∀ a ∈ b, ∃ L ∈ Ls, ∃ c ∈ L, a ∈ c := by
  intro Ls
  induction Ls with
  | nil =>
      intro b hb a ha
      rw [crossJoin, List.mem_singleton] at hb
      subst hb
      cases ha
  | cons L rest ih =>
      intro b hb a ha
      obtain ⟨c, hc, r, hr, rfl⟩ := mem_crossJoin_decompose _ _ b hb
      rcases List.mem_append.1 ha with hac | har
      · exact ⟨L, List.mem_cons_self _ _, c, hc, hac⟩
      · obtain ⟨L2, hL2, c2, hc2, ha2⟩ := ih r hr a har
        exact ⟨L2, List.mem_cons_of_mem L hL2, c2, hc2, ha2⟩

theorem forall2_map_pair {α β γ : Type} (l : List α) (f : α → β) (g : α → γ)
    (P : β → γ → Prop) (h : ∀ t ∈ l, P (f t) (g t)) :
    List.Forall₂ P (l.map f) (l.map g) := by
  induction l with
  | nil => exact List.Forall₂.nil
  | cons t ts ih =>
      exact List.Forall₂.cons (h t (List.mem_cons_self _ _))
        (ih (fun u hu => h u (List.mem_cons_of_mem t hu)))

/-! ### Lemmas tracing a search result back to its bundle -/

theorem mem_search (db : DB) (mins maxs : List (String × Nat)) (req : List String)
    (sortBy : String) (lim : Nat) (op wc : Bool) (r : SearchResult)
    (h : r ∈ search_combined_product_combinations db mins maxs req sortBy lim op wc) :
    r ∈ totalResults db mins maxs req := by
  unfold search_combined_product_combinations at h
  cases op with
  | true =>
      simp only [if_pos] at h
      exact (mem_sortResults sortBy r _).1
        (mem_dedupe _ r (List.mem_of_mem_take h))
  | false =>
      cases wc with
      | true =>
          simp only [Bool.false_eq_true, if_false, if_pos] at h
          exact (mem_sortResults sortBy r _).1 (List.mem_of_mem_take h)
      | false =>
          simp only [Bool.false_eq_true, if_false] at h
          exact (mem_sortResults sortBy r _).1 (List.mem_of_mem_take h)

theorem mem_totalResults_decompose (db : DB) (mins maxs : List (String × Nat))
    (req : List String) (r : SearchResult) (h : r ∈ totalResults db mins maxs req) :
    ∃ cp ∈ db.combinedProducts, r ∈ resultsForProduct db mins maxs req cp := by
  unfold totalResults at h
  rw [List.mem_flatten] at h
  obtain ⟨sub, hsub, hr⟩ := h
  obtain ⟨cp, hcp, rfl⟩ := List.mem_map.1 hsub
  exact ⟨cp, hcp, hr⟩

theorem mem_resultsForProduct (db : DB) (mins maxs : List (String × Nat))
    (req : List String) (cp : CombinedProduct) (r : SearchResult)
    (h : r ∈ resultsForProduct db mins maxs req cp) :
    productPasses db cp.id req = true ∧
      ∃ combo ∈ allCombos db cp.id mins maxs,
        bundleKeeps req combo = true ∧ r = mkResult db cp combo := by
  unfold resultsForProduct at h
  split at h
  case isTrue hp =>
      obtain ⟨combo, hcombo, rfl⟩ := List.mem_map.1 h
      rw [List.mem_filter] at hcombo
      exact ⟨hp, combo, hcombo.1, hcombo.2, rfl⟩
  case isFalse hp => cases h

/-! ### Claim theorems -/

/-- Claim C9 (confirmed): for an identifier matching no `CombinedProduct`
row, `calculate_combined_product_pricing` returns `none` (an empty result)
rather than failing. -/
theorem c9_unknown_product_gives_none (db : DB) (pid : String)
    (h : ∀ cp ∈ db.combinedProducts, cp.id ≠ pid) :
    calculate_combined_product_pricing db pid = none := by
  have hfi : findProductInfo db pid = none := by
    unfold findProductInfo
    have hf : db.combinedProducts.filter (fun cp => decide (cp.id = pid)) = [] := by
      rw [List.filter_eq_nil_iff]
      intro cp hcp
      simp [h cp hcp]
    rw [hf]
    rfl
  unfold calculate_combined_product_pricing
  rw [hfi]

/-- Witness for C9 at a concrete catalog: `"ZZZ"` is not a product id of
`dbR` and the pricing query returns `none` there. -/
theorem c9_witness :
    (∀ cp ∈ dbR.combinedProducts, cp.id ≠ "ZZZ") ∧
      calculate_combined_product_pricing dbR "ZZZ" = none :=
  ⟨by decide, c9_unknown_product_gives_none dbR "ZZZ" (by decide)⟩

/-- Claim C6 (confirmed): with a non-empty `required_plan_names`, every
result of `search_combined_product_combinations` contains at least one plan
whose name is required; the embedding prices only bundles that already
passed this filter, mirroring the `continue` placed before costing. -/
theorem c6_every_result_has_required_name (db : DB)
    (mins maxs : List (String × Nat)) (req : List String) (sortBy : String)
    (lim : Nat) (op wc : Bool) (hreq : req ≠ []) :
    ∀ r ∈ search_combined_product_combinations db mins maxs req sortBy lim op wc,
      ∃ n ∈ req, ∃ p ∈ r.plans, p.name = n := by
  intro r hr
  obtain ⟨cp, hcp, hrp⟩ := mem_totalResults_decompose db mins maxs req r
    (mem_search db mins maxs req sortBy lim op wc r hr)
  obtain ⟨hp, combo, hcombo, hkeep, rfl⟩ :=
    mem_resultsForProduct db mins maxs req cp r hrp
  unfold bundleKeeps at hkeep
  rw [Bool.or_eq_true] at hkeep
  rcases hkeep with hemp | hany
  · exact absurd (List.isEmpty_iff.1 hemp) hreq
  · rw [List.any_eq_true] at hany
    obtain ⟨n, hn, hcany⟩ := hany
    rw [List.any_eq_true] at hcany
    obtain ⟨p, hpc, hpn⟩ := hcany
    exact ⟨n, hn, p, hpc, of_decide_eq_true hpn⟩

/-- Witness for C6: searching `dbR` with `required_plan_names = ["A"]`. -/
theorem c6_witness :
    ((["A"] : List String) ≠ []) ∧
      ∀ r ∈ search_combined_product_combinations dbR i1 i1 ["A"]
          "min_final_price" 10 false false,
        ∃ n ∈ (["A"] : List String), ∃ p ∈ r.plans, p.name = n :=
  ⟨by decide,
    c6_every_result_has_required_name dbR i1 i1 ["A"] "min_final_price" 10
      false false (by decide)⟩

/-- Claim C10 (confirmed): with a non-empty `required_plan_names`, every
search result comes from a combined product whose eligible plan names
contain *every* required name — matching the all-names product-level
pre-filter at the top of the per-product loop. -/
theorem c10_results_only_from_all_names_products (db : DB)
    (mins maxs : List (String × Nat)) (req : List String) (sortBy : String)
    (lim : Nat) (op wc : Bool) (hreq : req ≠ []) :
    ∀ r ∈ search_combined_product_combinations db mins maxs req sortBy lim op wc,
      ∃ cp ∈ db.combinedProducts, cp.id = r.combined_product_id ∧
        ∀ n ∈ req, n ∈ allPlanNames db cp.id := by
  intro r hr
  obtain ⟨cp, hcp, hrp⟩ := mem_totalResults_decompose db mins maxs req r
    (mem_search db mins maxs req sortBy lim op wc r hr)
  obtain ⟨hp, combo, hcombo, hkeep, rfl⟩ :=
    mem_resultsForProduct db mins maxs req cp r hrp
  refine ⟨cp, hcp, rfl, ?_⟩
  unfold productPasses at hp
  rw [Bool.or_eq_true] at hp
  rcases hp with hemp | hall
  · exact absurd (List.isEmpty_iff.1 hemp) hreq
  · intro n hn
    rw [List.all_eq_true] at hall
    exact of_decide_eq_true (hall n hn)

/-- Witness for C10: searching `dbR` with `required_plan_names = ["A"]`. -/
theorem c10_witness :
    ((["A"] : List String) ≠ []) ∧
      ∀ r ∈ search_combined_product_combinations dbR i1 i1 ["A"]
          "max_discount_amount" 10 false false,
        ∃ cp ∈ dbR.combinedProducts, cp.id = r.combined_product_id ∧
          ∀ n ∈ (["A"] : List String), n ∈ allPlanNames dbR cp.id :=
  ⟨by decide,
    c10_results_only_from_all_names_products dbR i1 i1 ["A"]
      "max_discount_amount" 10 false false (by decide)⟩

/-- Claim C7 (confirmed): in `only_products` mode the returned list never
holds two results with the same `combined_product_id`. -/
theorem c7_only_products_ids_pairwise_distinct (db : DB)
    (mins maxs : List (String × Nat)) (req : List String) (sortBy : String)
    (lim : Nat) (wc : Bool) :
    (search_combined_product_combinations db mins maxs req sortBy lim true wc).Pairwise
      (fun a b => a.combined_product_id ≠ b.combined_product_id) := by
  unfold search_combined_product_combinations
  simp only [if_pos]
  exact List.Pairwise.sublist (List.take_sublist _ _) (pairwise_dedupe _)

/-- Claim C1, counterexample: in `dbS` the only matching condition carries
`override_unit = "percentage"`, value 10, on a plan with fee 1000; the
claim predicts a contribution of `floor(1000 * 10 / 100) = 100`, but the
search aggregates the raw value 10. -/
theorem c1_counterexample_percentage_unit_ignored :
    ((search_combined_product_combinations dbS i1 i1 [] "max_discount_amount"
        10 false false).map (fun r => r.total_discount_amount) = [10])
      ∧ planP.fee = 1000
      ∧ condD.override_discount_value = some 10
      ∧ condD.override_unit = some "percentage"
      ∧ (10 : Int) ≠ planP.fee * 10 / 100 := by
  refine ⟨by decide, rfl, rfl, rfl, by decide⟩

/-- Claim C2, counterexample: in `dbT` the plan's single condition row
matches but its override value is null and the owning discount's nominal
value is 40; the bundle's `total_discount_amount` is 0, not 40. -/
theorem c2_counterexample_null_override_contributes_zero :
    ((search_combined_product_combinations dbT i1 i1 [] "max_discount_amount"
        10 false false).map (fun r => r.total_discount_amount) = [0])
      ∧ matchingConds dbT "T1" planQ = [condE]
      ∧ condE.override_discount_value = none
      ∧ discE.discount_value = 40
      ∧ (0 : Int) ≠ 40 := by
  refine ⟨by decide, by decide, rfl, rfl, by decide⟩

/-- Claim C3 (code bug), evaluation at the failing input: `dbR` has one
product with bundles priced 5 and 10; after sorting by `min_final_price`
the list is `[5, 10]`, yet `only_products` mode returns the *last*
occurrence (price 10), not the first as the spec requires. -/
theorem c3_only_products_keeps_last_occurrence :
    ((search_combined_product_combinations dbR i1 i1 [] "min_final_price"
        10 true false).map (fun r => r.final_price) = [10])
      ∧ ((sortResults "min_final_price" (totalResults dbR i1 i1 [])).map
          (fun r => r.final_price) = [5, 10]) := by
  refine ⟨by decide, by decide⟩

/-- Claim C4, counterexample: the claim quantifies over every call with
`sort_by = "min_final_price"` and positive limit; with `only_products`
enabled on `dbR` (limit 1) the first returned result has final price 10
while an enumerated bundle with final price 5 exists. -/
theorem c4_counterexample_only_products_mode :
    ((search_combined_product_combinations dbR i1 i1 [] "min_final_price"
        1 true false).map (fun r => r.final_price) = [10])
      ∧ ((5 : Int) ∈ (totalResults dbR i1 i1 []).map (fun r => r.final_price))
      ∧ (10 : Int) ≠ 5 := by
  refine ⟨by decide, by decide, by decide⟩

/-! ### C1 amended: the override value is applied raw, the unit is ignored -/

theorem matchingConds_setUnits (u : Option String) (db : DB) (pid : String)
    (p : ServicePlan) :
    matchingConds (setUnits u db) pid p
      = (matchingConds db pid p).map (fun c => { c with override_unit := u }) := by
  unfold matchingConds setUnits
  rw [List.filter_map]
  rfl

/-- Claim C1 (amended): each matching plan-level condition with a non-null
override contributes the override value itself to `discount_total`, as a
fixed amount, regardless of `override_unit`; rewriting every row's unit
leaves the aggregate unchanged. -/
theorem c1_amended_override_is_raw_value (db : DB) (pid : String)
    (combo : List ServicePlan) (u : Option String) :
    (totalDiscountFor db pid combo
        = (combo.map (fun p =>
            ((matchingConds db pid p).filterMap
              (fun c => c.override_discount_value)).sum)).sum)
      ∧ totalDiscountFor (setUnits u db) pid combo
          = totalDiscountFor db pid combo := by
  constructor
  · rfl
  · unfold totalDiscountFor
    congr 1
    apply List.map_congr_left
    intro p _
    rw [matchingConds_setUnits, List.filterMap_map]
    rfl

/-! ### C2 amended: null overrides contribute nothing in the search; the
nominal-value fallback lives in `calculate_combined_product_pricing` -/

theorem filterMap_override_filter_isSome (l : List DiscountConditionByPlan)
    (p : DiscountConditionByPlan → Bool) :
    (l.filter (fun c => p c && c.override_discount_value.isSome)).filterMap
        (fun c => c.override_discount_value)
      = (l.filter p).filterMap (fun c => c.override_discount_value) := by
  induction l with
  | nil => rfl
  | cons c cs ih =>
      rcases hval : c.override_discount_value with _ | v <;>
        by_cases hp : p c <;>
          simp [List.filter_cons, hval, hp, ih, List.filterMap_cons]

/-- Claim C2 (amended): in `search_combined_product_combinations` a
matching condition row whose `override_discount_value` is null contributes
nothing to `discount_total` — deleting all null-override rows does not
change the aggregate (a normal data state, not an error); the fallback to
the discount's nominal value exists only in
`calculate_combined_product_pricing`, whose per-plan contribution equals
`discount_value` when the fetched condition row has a null override. -/
theorem c2_amended_null_override_means_no_override (db : DB) (pid : String)
    (combo : List ServicePlan) (d : Discount) (apName : String)
    (c : DiscountConditionByPlan) (h1 : planCondFor db d apName = some c)
    (h2 : c.override_discount_value = none) :
    (totalDiscountFor (dropNullConds db) pid combo
        = totalDiscountFor db pid combo)
      ∧ calcContribution db d apName = d.discount_value := by
  constructor
  · unfold totalDiscountFor
    congr 1
    apply List.map_congr_left
    intro p _
    have hmc : matchingConds (dropNullConds db) pid p
        = (db.planConds.filter (fun c => c.override_discount_value.isSome)).filter
            (fun c => decide (c.service_plan_id = p.id ∧
              ∃ d ∈ db.discounts, d.id = c.discount_id ∧
                d.combined_product_id = pid)) := rfl
    rw [hmc, List.filter_filter, filterMap_override_filter_isSome]
    rfl
  · unfold calcContribution
    rw [h1]
    simp [h2]

/-- Witness for the C2 amended theorem at `dbT`: the condition row for plan
name `"Q"` has a null override and the pricing contribution falls back to
the discount's nominal value 40. -/
theorem c2_amended_witness :
    (totalDiscountFor (dropNullConds dbT) "T1" [planQ]
        = totalDiscountFor dbT "T1" [planQ])
      ∧ calcContribution dbT discE "Q" = discE.discount_value :=
  c2_amended_null_override_means_no_override dbT "T1" [planQ] discE "Q" condE
    (by decide) (by decide)

/-- Claim C4 (amended: restricted to `only_products = false`, as forced by
the counterexample): with `sort_by = "min_final_price"` and a positive
limit, the first returned result is an enumerated bundle of globally
minimal final price, and sorting filters each final-price class unchanged —
stable-sort semantics with no secondary key. -/
theorem c4_amended_head_is_global_min (db : DB)
    (mins maxs : List (String × Nat)) (req : List String) (lim : Nat)
    (wc : Bool) (hlim : 0 < lim) (hne : totalResults db mins maxs req ≠ []) :
    ∃ r, (search_combined_product_combinations db mins maxs req
        "min_final_price" lim false wc).head? = some r ∧
      r ∈ totalResults db mins maxs req ∧
      (∀ s ∈ totalResults db mins maxs req, r.final_price ≤ s.final_price) ∧
      ∀ k : Int,
        (sortResults "min_final_price" (totalResults db mins maxs req)).filter
            (fun s => decide (s.final_price = k))
          = (totalResults db mins maxs req).filter
              (fun s => decide (s.final_price = k)) := by
  have hsr : sortResults "min_final_price" (totalResults db mins maxs req)
      = sortAsc (fun r => r.final_price) (totalResults db mins maxs req) := by
    unfold sortResults
    rw [if_neg (by decide), if_pos rfl]
  obtain ⟨r, rest, hcons⟩ : ∃ r rest,
      sortAsc (fun r => r.final_price) (totalResults db mins maxs req)
        = r :: rest := by
    cases hs : sortAsc (fun r => r.final_price) (totalResults db mins maxs req) with
    | nil =>
        exfalso
        apply hne
        have hlen := length_sortAsc (fun r => r.final_price)
          (totalResults db mins maxs req)
        rw [hs] at hlen
        exact List.length_eq_zero.1 hlen.symm
    | cons r rest => exact ⟨r, rest, rfl⟩
  obtain ⟨m, rfl⟩ : ∃ m, lim = m + 1 := ⟨lim - 1, by omega⟩
  have hsearch : search_combined_product_combinations db mins maxs req
      "min_final_price" (m + 1) false wc = (r :: rest).take (m + 1) := by
    unfold search_combined_product_combinations
    rw [hsr, hcons]
    cases wc <;> simp
  refine ⟨r, ?_, ?_, ?_, ?_⟩
  · rw [hsearch, List.take_succ_cons]
    rfl
  · exact (mem_sortAsc (fun r => r.final_price) r _).1
      (by rw [hcons]; exact List.mem_cons_self r rest)
  · exact sortAsc_head_le (fun r => r.final_price) _ rest r hcons
  · intro k
    rw [hsr]
    exact filter_sortAsc (fun s : SearchResult => s.final_price) k _

/-- Witness for the C4 amended theorem at `dbR` with limit 1. -/
theorem c4_amended_witness :
    ((0 : Nat) < 1 ∧ totalResults dbR i1 i1 [] ≠ []) ∧
      ∃ r, (search_combined_product_combinations dbR i1 i1 []
          "min_final_price" 1 false false).head? = some r ∧
        r ∈ totalResults dbR i1 i1 [] ∧
        (∀ s ∈ totalResults dbR i1 i1 [], r.final_price ≤ s.final_price) ∧
        ∀ k : Int,
          (sortResults "min_final_price" (totalResults dbR i1 i1 [])).filter
              (fun s => decide (s.final_price = k))
            = (totalResults dbR i1 i1 []).filter
                (fun s => decide (s.final_price = k)) :=
  ⟨⟨by decide, by decide⟩,
    c4_amended_head_is_global_min dbR i1 i1 [] 1 false (by decide) (by decide)⟩

/-- Claim C5 (confirmed): with `min_count = max_count` for every service
type and no required-plan filter, every enumerated bundle has size equal to
the sum of the per-type counts, the number of enumerated bundles is the
product over types of `C(n_t + k_t - 1, k_t)` (combinations with
replacement), and with an empty required list no bundle is discarded before
pricing. -/
theorem c5_bundle_sizes_and_count (db : DB) (cp : CombinedProduct)
    (mins maxs : List (String × Nat))
    (h : ∀ t ∈ serviceTypes, getCount mins t = getCount maxs t) :
    (∀ b ∈ allCombos db cp.id mins maxs,
        b.length = (serviceTypes.map (fun t => getCount mins t)).sum)
      ∧ (allCombos db cp.id mins maxs).length
          = (serviceTypes.map (fun t =>
              Nat.choose ((plansByType db cp.id t).length + getCount mins t - 1)
                (getCount mins t))).prod
      ∧ (resultsForProduct db mins maxs [] cp).length
          = (allCombos db cp.id mins maxs).length := by
  have htc : ∀ t ∈ serviceTypes,
      typeCombos (plansByType db cp.id t) (getCount mins t) (getCount maxs t)
        = combinations_with_replacement (plansByType db cp.id t)
            (getCount mins t) := by
    intro t ht
    rw [← h t ht, typeCombos_same]
  refine ⟨?_, ?_, ?_⟩
  · intro b hb
    refine length_mem_crossJoin _ (serviceTypes.map (fun t => getCount mins t))
      ?_ b hb
    refine forall2_map_pair serviceTypes _ _ _ ?_
    intro t ht c hc
    rw [htc t ht] at hc
    exact length_mem_cwr _ _ c hc
  · unfold allCombos
    rw [length_crossJoin, List.map_map]
    refine congrArg List.prod ?_
    refine List.map_congr_left ?_
    intro t ht
    have hcomp : (List.length ∘ fun t =>
        typeCombos (plansByType db cp.id t) (getCount mins t) (getCount maxs t)) t
        = (typeCombos (plansByType db cp.id t) (getCount mins t)
            (getCount maxs t)).length := rfl
    rw [hcomp, htc t ht, length_cwr, Nat.multichoose_eq]
  · simp [resultsForProduct, productPasses, bundleKeeps]

/-- Witness for C5 at `dbR` with two eligible Internet plans and
`k = 2`: bundles of size 2 and `C(2 + 2 - 1, 2) = 3` of them. -/
theorem c5_witness :
    (∀ t ∈ serviceTypes, getCount i2 t = getCount i2 t) ∧
      ((∀ b ∈ allCombos dbR prodR.id i2 i2,
          b.length = (serviceTypes.map (fun t => getCount i2 t)).sum)
        ∧ (allCombos dbR prodR.id i2 i2).length
            = (serviceTypes.map (fun t =>
                Nat.choose ((plansByType dbR prodR.id t).length + getCount i2 t - 1)
                  (getCount i2 t))).prod
        ∧ (resultsForProduct dbR i2 i2 [] prodR).length
            = (allCombos dbR prodR.id i2 i2).length) :=
  ⟨fun _ _ => rfl, c5_bundle_sizes_and_count dbR prodR i2 i2 (fun _ _ => rfl)⟩

/-- Claim C8 (confirmed): a service type whose min and max counts are both
0 (which is also what absent map keys default to) contributes only the
single empty multiset, and no plan of that type occurs in any enumerated
bundle. -/
theorem c8_zero_count_type_absent (db : DB) (pid : String)
    (mins maxs : List (String × Nat)) (t : String) (_ht : t ∈ serviceTypes)
    (h1 : getCount mins t = 0) (h2 : getCount maxs t = 0) :
    (typeCombos (plansByType db pid t) (getCount mins t) (getCount maxs t)
        = [[]])
      ∧ ∀ b ∈ allCombos db pid mins maxs, ∀ p ∈ b, p.service_type ≠ t := by
  have htz : typeCombos (plansByType db pid t) (getCount mins t)
      (getCount maxs t) = [[]] := by
    rw [h1, h2, typeCombos_zero]
  refine ⟨htz, ?_⟩
  intro b hb p hp hpt
  obtain ⟨L, hL, c, hc, hpc⟩ := mem_elem_crossJoin _ b hb p hp
  obtain ⟨t2, ht2, rfl⟩ := List.mem_map.1 hL
  obtain ⟨r, hr⟩ := mem_typeCombos _ _ _ c hc
  have hpPlans : p ∈ plansByType db pid t2 := mem_of_mem_cwr _ _ c hr p hpc
  have hpt2 : p.service_type = t2 := by
    unfold plansByType at hpPlans
    rw [List.mem_filter] at hpPlans
    exact of_decide_eq_true hpPlans.2
  rw [hpt] at hpt2
  subst hpt2
  rw [htz, List.mem_singleton] at hc
  subst hc
  cases hpc

/-- Witness for C8 at `dbR`: the TV type has zero counts under `i1` and no
TV plan occurs in any enumerated bundle. -/
theorem c8_witness :
    ("TV" ∈ serviceTypes ∧ getCount i1 "TV" = 0) ∧
      ((typeCombos (plansByType dbR "R1" "TV") (getCount i1 "TV")
          (getCount i1 "TV") = [[]])
        ∧ ∀ b ∈ allCombos dbR "R1" i1 i1, ∀ p ∈ b, p.service_type ≠ "TV") :=
  ⟨⟨by decide, by decide⟩,
    c8_zero_count_type_absent dbR "R1" i1 i1 "TV" (by decide) (by decide)
      (by decide)⟩

end TelecomDB

